import Mathlib

/-!
Shallow embedding of the incremental state-tracking and batch-enhancement
coordinator of `image_scraper/pipelines.py` (class `EnhancedImagePipeline`
and class `RateLimiter`), together with theorems settling the spec claims.

Modelling conventions:
* URLs and file-system paths are `String`s; timestamps are integers
  (seconds); rational numbers model Python floats where division occurs.
* The Python dict `image_status` is an insertion-ordered association list
  `List (String × ImageRecord)`; Python dict semantics (first-key lookup,
  append-on-new-key) are modelled by `lookupK` / `memK` / append.
* Filesystem and subprocess effects are oracles passed in as parameters:
  `copyOk : String → Bool` says whether `shutil.copy2` into the waifu2x
  input directory succeeds for a given source path, and
  `toolResult : Option Bool` is the outcome of launching the external
  tool (`none` = exception while launching, `some b` with
  `b = (returncode == 0)`).
* Advisory metadata fields of a record (`download_time`, `filename`,
  `file_size`, `domain`) are not modelled; no claim mentions them.
-/

namespace Scrapool

/-! ### RateLimiter (pipelines.py lines 21–39)

`requests` is the deque of timestamps, oldest first.  `wait_if_needed`
first pops entries strictly older than the window, then, if still full,
sleeps until `requests[0] + time_window`; finally it appends `now` — the
timestamp captured *before* the sleep.  The function below returns the
updated state together with the real-clock time at which the call
returns (the admission time). -/

structure RateLimiterState where
  maxRequests : Nat
  timeWindow : Int
  requests : List Int
deriving Repr

/-- `while self.requests and (now - self.requests[0]) > timedelta(seconds=w): popleft()` -/
def cleanOld (w : Int) (now : Int) : List Int → List Int
  | [] => []
  | t :: ts => if now - t > w then cleanOld w now ts else t :: ts

/-- One call of `RateLimiter.wait_if_needed`, entered at real time `now`.
Returns `(new state, admission time)`.  Note the faithful quirks: the
sleep target is computed from the head of the cleaned deque, and the
timestamp appended is `now` (captured before sleeping), not the
admission time. -/
def waitIfNeeded (s : RateLimiterState) (now : Int) : RateLimiterState × Int :=
  let q := cleanOld s.timeWindow now s.requests
  let admission :=
    if s.maxRequests ≤ q.length then
      match q with
      | [] => now
      | t :: _ => max now (t + s.timeWindow)
    else now
  ({ s with requests := q ++ [now] }, admission)

/-- `n` back-to-back calls (zero gap: each call's `datetime.now()` is the
previous call's return time).  Returns the list of admission times. -/
def simulateBackToBack : Nat → RateLimiterState → Int → List Int
  | 0, _, _ => []
  | n + 1, s, now =>
    let (s', adm) := waitIfNeeded s now
    adm :: simulateBackToBack n s' adm

def initialLimiter : RateLimiterState :=
  { maxRequests := 10, timeWindow := 60, requests := [] }

/-! ### Ledger records and pipeline state -/

/-- One value of the `image_status` dict as created by `item_completed`.
`failed` models the truthiness of the optional `"failed"` key
(`status.get('failed')`); a record created without that key has
`failed = false`.  `file_path` is `none` for legacy records lacking the
`"file_path"` key. -/
structure ImageRecord where
  downloaded : Bool
  enhanced : Bool
  failed : Bool
  file_path : Option String
deriving DecidableEq, Repr

/-- First-match lookup in an insertion-ordered association list
(Python dict read `m[k]` / `m.get(k)`). -/
def lookupK (m : List (String × ImageRecord)) (k : String) : Option ImageRecord :=
  match m with
  | [] => none
  | (k', v) :: rest => if k' = k then some v else lookupK rest k

/-- Python `k in m`. -/
def memK (m : List (String × ImageRecord)) (k : String) : Bool :=
  match m with
  | [] => false
  | (k', _) :: rest => k' = k || memK rest k

/-- Python `m.keys()` in insertion order. -/
def keysOf (m : List (String × ImageRecord)) : List String :=
  m.map Prod.fst

/-- In-memory state of `EnhancedImagePipeline` relevant to the claims:
the ledger dict, the pending batch `new_images` (full paths), the set
`all_urls`, the run counters, and `store.basedir`. -/
structure PipelineState where
  basedir : String
  image_status : List (String × ImageRecord)
  new_images : List String
  all_urls : List String
  statsDownloaded : Nat
  statsEnhanced : Nat
  statsFailed : Nat
deriving Repr

/-- Pipeline state right after `__init__` with an empty (or absent)
persisted ledger. -/
def initState (basedir : String) : PipelineState :=
  { basedir := basedir, image_status := [], new_images := [], all_urls := []
    statsDownloaded := 0, statsEnhanced := 0, statsFailed := 0 }

/-! ### String containment (Python `needle in hay`) -/

def leadsWith : List Char → List Char → Bool
  | [], _ => true
  | _ :: _, [] => false
  | a :: as, b :: bs => a = b && leadsWith as bs

def occursWithin (needle : List Char) : List Char → Bool
  | [] => leadsWith needle []
  | b :: bs => leadsWith needle (b :: bs) || occursWithin needle bs

/-- Python substring test `needle in hay`. -/
def strContains (hay needle : String) : Bool :=
  occursWithin needle.toList hay.toList

/-- `os.path.join(a, b)` for the forward-slash case used throughout. -/
def joinPath (a b : String) : String := a ++ "/" ++ b

/-! ### get_media_requests (pipelines.py lines 242–265)

`self.all_urls.update(urls)` followed by yielding a request for every
URL with `url not in self.image_status`.  Rate limiting and the random
sleep pace the yields but do not change which URLs are requested; they
are modelled separately by `waitIfNeeded`. -/

/-- Python `set.update`, with the set modelled as a duplicate-free list in
insertion order. -/
def addUrls (acc : List String) : List String → List String
  | [] => acc
  | u :: us => addUrls (if acc.contains u then acc else acc ++ [u]) us

/-- Returns the updated state and the list of URLs actually requested. -/
def getMediaRequests (st : PipelineState) (urls : List String) :
    PipelineState × List String :=
  ({ st with all_urls := addUrls st.all_urls urls },
   urls.filter (fun u => !(memK st.image_status u)))

/-! ### item_completed (pipelines.py lines 308–347) -/

/-- One element of the `results` list handed to `item_completed`:
either a successful fetch `(True, {'url': …, 'path': …})` or a failure
`(False, reason)`. -/
inductive FetchResult where
  | ok (url : String) (path : String)
  | err
deriving DecidableEq, Repr

/-- `skip_enhancement_domains = ['ticketsasa.com', 'admin.ticketsasa.com']` -/
def skipEnhancementDomains : List String :=
  ["ticketsasa.com", "admin.ticketsasa.com"]

/-- `any(domain in url for domain in skip_enhancement_domains)` -/
def isSkipUrl (url : String) : Bool :=
  skipEnhancementDomains.any (fun d => strContains url d)

/-- First loop of `item_completed`: `skip_enhancement` is set for the
whole item if ANY successful result's URL matches an exempt domain. -/
def skipEnhancement (results : List FetchResult) : Bool :=
  results.any fun r =>
    match r with
    | .ok url _ => isSkipUrl url
    | .err => false

/-- The dict value created at lines 335–343 (advisory metadata omitted).
`enhanced` is set to `skip_enhancement`; no `"failed"` key is created. -/
def newRecord (skip : Bool) (path : String) : ImageRecord :=
  { downloaded := true, enhanced := skip, failed := false, file_path := some path }

/-- Second loop of `item_completed`: for each successful result whose URL
is not yet in `image_status`, append the full path to `new_images`
unless the item is exempt, bump the `downloaded` counter, and create the
ledger record. -/
def processResults (skip : Bool) (st : PipelineState) :
    List FetchResult → PipelineState
  | [] => st
  | .err :: rest => processResults skip st rest
  | .ok url path :: rest =>
    if memK st.image_status url then processResults skip st rest
    else
      processResults skip
        { st with
          new_images :=
            if skip then st.new_images
            else st.new_images ++ [joinPath st.basedir path]
          statsDownloaded := st.statsDownloaded + 1
          image_status := st.image_status ++ [(url, newRecord skip path)] }
        rest

def itemCompleted (st : PipelineState) (results : List FetchResult) :
    PipelineState :=
  processResults (skipEnhancement results) st results

/-! ### close_spider (pipelines.py lines 349–415) and its helpers -/

/-- `run_waifu2x` (lines 163–212): if the input staging directory is
empty, return `True` without launching the tool; otherwise launch it and
return `returncode == 0`, or `False` if an exception was raised while
launching.  Result: `(success reported, tool actually launched)`. -/
def runWaifu2x (staged : List String) (toolResult : Option Bool) : Bool × Bool :=
  if staged.isEmpty then (true, false)
  else
    match toolResult with
    | some ok => (ok, true)
    | none => (false, true)

/-- Does this record's reconstructed full path
(`os.path.join(self.store.basedir, status['file_path'])`) occur in the
pending batch?  Records without a `file_path` key never match
(line 368 `if 'file_path' in status`). -/
def matchesPending (basedir : String) (pending : List String)
    (r : ImageRecord) : Bool :=
  match r.file_path with
  | none => false
  | some p => pending.contains (joinPath basedir p)

/-- The enhancement phase of `close_spider` (lines 351–381):
clean the staging folders, copy every pending file (the Boolean result
of each `copy_to_waifu2x` is ignored, so `staged` is the sub-list of
pending files whose copy succeeded), run the tool once, and reconcile.
On reported success, `stats['enhanced'] = len(new_images)` and every
matching record gets `enhanced = True`; on failure,
`stats['failed'] = len(new_images)` and every matching record gets
`enhanced = False` — the records' `failed` field is never written.
Returns the updated state and whether the external tool was launched. -/
def enhanceOutcome (st : PipelineState) (copyOk : String → Bool)
    (toolResult : Option Bool) : PipelineState × Bool :=
  if st.new_images.isEmpty then (st, false)
  else
    let staged := st.new_images.filter copyOk
    let res := runWaifu2x staged toolResult
    if res.1 then
      ({ st with
          statsEnhanced := st.new_images.length
          image_status := st.image_status.map fun kv =>
            if matchesPending st.basedir st.new_images kv.2 then
              (kv.1, { kv.2 with enhanced := true })
            else kv },
        res.2)
    else
      ({ st with
          statsFailed := st.new_images.length
          image_status := st.image_status.map fun kv =>
            if matchesPending st.basedir st.new_images kv.2 then
              (kv.1, { kv.2 with enhanced := false })
            else kv },
        res.2)

/-- The `stats` block of `image_status.json`. -/
structure SavedStats where
  total : Nat
  enhanced : Nat
  failed : Nat
deriving DecidableEq, Repr

/-- What `save_image_status` writes (timestamp omitted). -/
structure SavedLedger where
  images : List (String × ImageRecord)
  stats : SavedStats
deriving DecidableEq, Repr

/-- The `save_image_status` that actually executes (lines 124–137, the
second textual definition of the method in the class body, which shadows
the first): the in-memory dict is written as-is and the stats block is
recomputed from the records at save time. -/
def saveImageStatus (m : List (String × ImageRecord)) : SavedLedger :=
  { images := m
    stats :=
      { total := m.length
        enhanced := (m.filter fun kv => kv.2.enhanced).length
        failed := (m.filter fun kv => kv.2.failed).length } }

/-- Python dict write `m[k] = v` (overwrite in place, or append). -/
def dictInsert (m : List (String × ImageRecord)) (k : String)
    (v : ImageRecord) : List (String × ImageRecord) :=
  if memK m k then
    m.map fun kv => if kv.1 = k then (k, v) else kv
  else m ++ [(k, v)]

/-- The shadowed FIRST definition of `save_image_status` (lines 42–55):
it builds `{self.normalize_url(k): v for k, v in self.image_status.items()}`
before serializing.  `normalize_url` is not defined anywhere in the
class, so the normalizer is a parameter here; this definition never runs
(the later definition of the same name replaces it when the class body
is executed) and is embedded only to compare behaviours. -/
def saveImageStatusShadowed (normalize : String → String)
    (m : List (String × ImageRecord)) : SavedLedger :=
  let nm := m.foldl (fun acc kv => dictInsert acc (normalize kv.1) kv.2) []
  { images := nm
    stats :=
      { total := nm.length
        enhanced := (nm.filter fun kv => kv.2.enhanced).length
        failed := (nm.filter fun kv => kv.2.failed).length } }

/-- The run summary written to `pipeline_stats.json` (lines 404–415);
`runtime` and `timestamp` strings omitted, `elapsed` is
`runtime.total_seconds()`. -/
structure RunSummary where
  totalUrls : Nat
  downloaded : Nat
  enhanced : Nat
  failed : Nat
  successRate : ℚ
  avgTimePerImage : ℚ
deriving DecidableEq, Repr

def mkSummary (st : PipelineState) (elapsed : ℚ) : RunSummary :=
  { totalUrls := st.all_urls.length
    downloaded := st.statsDownloaded
    enhanced := st.statsEnhanced
    failed := st.statsFailed
    successRate :=
      if 0 < st.statsDownloaded then
        (st.statsEnhanced : ℚ) / (st.statsDownloaded : ℚ) * 100
      else 0
    avgTimePerImage :=
      if 0 < st.statsDownloaded then elapsed / (st.statsDownloaded : ℚ)
      else 0 }

/-- Everything observable at the end of `close_spider`. -/
structure CloseOutcome where
  final : PipelineState
  launched : Bool
  saved : SavedLedger
  summary : RunSummary

/-- `close_spider` (lines 349–415): enhancement phase (when the pending
batch is non-empty), then `save_image_status`, then the run summary. -/
def closeSpider (st : PipelineState) (copyOk : String → Bool)
    (toolResult : Option Bool) (elapsed : ℚ) : CloseOutcome :=
  let eo := enhanceOutcome st copyOk toolResult
  { final := eo.1
    launched := eo.2
    saved := saveImageStatus eo.1.image_status
    summary := mkSummary eo.1 elapsed }

/-! ### load_image_status (pipelines.py lines 108–122)

The persisted file is modelled as either missing, not decodable as
JSON, or a JSON value.  `json.load` failures (`JSONDecodeError`) and a
missing file (`FileNotFoundError`) are caught and yield an empty ledger;
any other exception inside the `try` block — in particular the
`AttributeError`s raised by `data.get` on a non-dict (line 114), by
`.values()` on a non-dict `images` entry (line 115), or by
`status.get` on a non-dict record (line 115) — propagates to the
caller. -/

inductive Json where
  | obj (fields : List (String × Json))
  | arr (elems : List Json)
  | str (s : String)
  | num (n : Int)
  | bool (b : Bool)
  | null

def Json.isObj : Json → Bool
  | .obj _ => true
  | _ => false

def jLookup (fields : List (String × Json)) (k : String) : Option Json :=
  match fields with
  | [] => none
  | (k', v) :: rest => if k' = k then some v else jLookup rest k

inductive FileContent where
  | missing
  | notJson
  | jsonContent (v : Json)

/-- Outcome of `load_image_status`: either the in-memory `images` dict
(still as JSON values) together with whether the "no previous status"
degraded-condition message was logged, or an uncaught exception. -/
inductive LoadOutcome where
  | ok (images : List (String × Json)) (degradedLogged : Bool)
  | raised

def loadImageStatus : FileContent → LoadOutcome
  | .missing => .ok [] true
  | .notJson => .ok [] true
  | .jsonContent v =>
    match v with
    | .obj fields =>
      match jLookup fields "images" with
      | none => .ok [] false
      | some (.obj imgs) =>
        if imgs.all (fun kv => kv.2.isObj) then .ok imgs false
        else .raised
      | some _ => .raised
    | _ => .raised

/-! ### Concrete run scenarios used by the claim theorems -/

/-- C7 scenario: two new non-exempt downloads; the staging copy
succeeds only for the first file; the tool exits zero. -/
def c7Batch : List FetchResult :=
  [.ok "http://one.example/1.jpg" "full/one_1.jpg",
   .ok "http://two.example/2.jpg" "full/two_2.jpg"]

def c7Copy : String → Bool := fun p => decide (p = "store/full/one_1.jpg")

def c7Run : CloseOutcome :=
  closeSpider (itemCompleted (initState "store") c7Batch) c7Copy (some true) 0

/-- C8 scenario: empty starting ledger, three identifiers discovered and
downloaded, none exempt, tool exits zero, elapsed 6 seconds. -/
def c8Urls : List String :=
  ["http://a.example/a.jpg", "http://b.example/b.jpg",
   "http://c.example/c.jpg"]

def c8Results : List FetchResult :=
  [.ok "http://a.example/a.jpg" "full/a.jpg",
   .ok "http://b.example/b.jpg" "full/b.jpg",
   .ok "http://c.example/c.jpg" "full/c.jpg"]

def c8Run : CloseOutcome :=
  closeSpider
    (itemCompleted (getMediaRequests (initState "store") c8Urls).1 c8Results)
    (fun _ => true) (some true) 6

/-- A run that downloads nothing, for the `downloaded = 0` branch. -/
def c8Empty : CloseOutcome :=
  closeSpider (initState "store") (fun _ => true) none 0

/-- A minimal record used to exhibit the behaviour of the shadowed
`save_image_status`. -/
def plainRecord : ImageRecord :=
  { downloaded := true, enhanced := false, failed := false, file_path := none }

/-- C9 scenario: one new non-exempt download whose staging copy fails. -/
def c9State : PipelineState :=
  itemCompleted (initState "store")
    [.ok "http://nine.example/n.jpg" "full/nine_n.jpg"]

/-! ### Association-list lemmas -/

theorem memK_append (m m' : List (String × ImageRecord)) (k : String) :
    memK (m ++ m') k = (memK m k || memK m' k) := by
  induction m with
  | nil => simp [memK]
  | cons kv rest ih => simp [memK, ih, Bool.or_assoc]

theorem lookupK_append_left (m m' : List (String × ImageRecord)) (k : String)
    (h : memK m k = true) : lookupK (m ++ m') k = lookupK m k := by
  induction m with
  | nil => simp [memK] at h
  | cons kv rest ih =>
    obtain ⟨k', v⟩ := kv
    by_cases hk : k' = k
    · simp [lookupK, hk]
    · simp only [memK, Bool.or_eq_true, decide_eq_true_eq] at h
      rcases h with h | h
      · exact absurd h hk
      · simp [lookupK, hk, ih h]

theorem memK_iff_mem_keysOf (m : List (String × ImageRecord)) (k : String) :
    memK m k = true ↔ k ∈ keysOf m := by
  induction m with
  | nil => simp [memK, keysOf]
  | cons kv rest ih =>
    obtain ⟨k', v⟩ := kv
    simp only [memK, Bool.or_eq_true, decide_eq_true_eq, keysOf,
      List.map_cons, List.mem_cons, ih]
    simp only [keysOf] at ih
    constructor
    · rintro (h | h)
      · exact Or.inl h.symm
      · exact Or.inr h
    · rintro (h | h)
      · exact Or.inl h.symm
      · exact Or.inr h

theorem memK_of_mem (m : List (String × ImageRecord)) (k : String)
    (r : ImageRecord) (h : (k, r) ∈ m) : memK m k = true := by
  rw [memK_iff_mem_keysOf]
  exact List.mem_map_of_mem Prod.fst h

/-! ### Structural facts about processResults -/

/-- `processResults` only appends fresh keys: the final dict is the input
dict followed by an extension of pairwise-distinct keys none of which
was already present, `new_images` is extended (not at all when the item
is exempt), the `downloaded` counter grows by exactly the number of
appended records, and everything else is untouched. -/
theorem processResults_spec (skip : Bool) (rs : List FetchResult) :
    ∀ st : PipelineState, ∃ ext extp,
      (processResults skip st rs).basedir = st.basedir ∧
      (processResults skip st rs).all_urls = st.all_urls ∧
      (processResults skip st rs).statsEnhanced = st.statsEnhanced ∧
      (processResults skip st rs).statsFailed = st.statsFailed ∧
      (processResults skip st rs).image_status = st.image_status ++ ext ∧
      (processResults skip st rs).new_images = st.new_images ++ extp ∧
      (processResults skip st rs).statsDownloaded
        = st.statsDownloaded + ext.length ∧
      (∀ kv ∈ ext, memK st.image_status kv.1 = false) ∧
      (keysOf ext).Nodup ∧
      (skip = true → extp = []) := by
  induction rs with
  | nil =>
    intro st
    exact ⟨[], [], rfl, rfl, rfl, rfl, by simp [processResults],
      by simp [processResults], by simp [processResults],
      by simp, by simp [keysOf], fun _ => rfl⟩
  | cons x rest ih =>
    intro st
    cases x with
    | err => simpa only [processResults] using ih st
    | ok url path =>
      by_cases hmem : memK st.image_status url = true
      · simpa only [processResults, if_pos hmem] using ih st
      · rw [Bool.not_eq_true] at hmem
        set st' : PipelineState :=
          { st with
            new_images :=
              if skip then st.new_images
              else st.new_images ++ [joinPath st.basedir path]
            statsDownloaded := st.statsDownloaded + 1
            image_status :=
              st.image_status ++ [(url, newRecord skip path)] } with hst'
        have hstep : processResults skip st (.ok url path :: rest)
            = processResults skip st' rest := by
          simp only [processResults, hmem, Bool.false_eq_true, if_false]
        obtain ⟨ext, extp, hbase, hurls, henh, hfail, himg, hni, hsd,
          hfresh, hnd, hskip⟩ := ih st'
        refine ⟨(url, newRecord skip path) :: ext,
          (if skip then [] else [joinPath st.basedir path]) ++ extp,
          ?_, ?_, ?_, ?_, ?_, ?_, ?_, ?_, ?_, ?_⟩
        · rw [hstep, hbase]
        · rw [hstep, hurls]
        · rw [hstep, henh]
        · rw [hstep, hfail]
        · rw [hstep, himg]; simp [hst']
        · rw [hstep, hni]
          cases skip <;> simp [hst']
        · rw [hstep, hsd]; simp [hst']; omega
        · intro kv hkv
          rcases List.mem_cons.1 hkv with h | h
          · subst h; exact hmem
          · have := hfresh kv h
            rw [hst'] at this
            simp only [memK_append] at this
            exact (Bool.or_eq_false_iff.1 this).1
        · have hne : url ∉ keysOf ext := by
            intro hcon
            obtain ⟨kv, hkv, hfst⟩ := List.mem_map.1 hcon
            have := hfresh kv hkv
            rw [hst'] at this
            simp only [memK_append] at this
            have h2 := (Bool.or_eq_false_iff.1 this).2
            rw [hfst] at h2
            simp [memK] at h2
          simpa [keysOf] using ⟨by simpa [keysOf] using hne, hnd⟩
        · intro hsk
          subst hsk
          simp [hskip rfl]

/-- Membership in `new_images` is monotone along `processResults`. -/
theorem processResults_newimg_mono (skip : Bool) (rs : List FetchResult)
    (st : PipelineState) (p : String) (h : p ∈ st.new_images) :
    p ∈ (processResults skip st rs).new_images := by
  obtain ⟨_, extp, _, _, _, _, _, hni, _, _, _, _⟩ :=
    processResults_spec skip rs st
  rw [hni]
  exact List.mem_append_left _ h

/-- Every entry of the final dict is either an original entry or a fresh
record created from a successful result of this item; when the item is
not exempt, the fresh record's full path is in the final pending
batch. -/
theorem processResults_status_shape (skip : Bool) (rs : List FetchResult) :
    ∀ st u r, (u, r) ∈ (processResults skip st rs).image_status →
      (u, r) ∈ st.image_status ∨
      ∃ q, FetchResult.ok u q ∈ rs ∧ r = newRecord skip q ∧
        memK st.image_status u = false ∧
        (skip = false →
          joinPath st.basedir q ∈ (processResults skip st rs).new_images) := by
  induction rs with
  | nil =>
    intro st u r h
    exact Or.inl (by simpa [processResults] using h)
  | cons x rest ih =>
    intro st u r h
    cases x with
    | err =>
      rw [show processResults skip st (.err :: rest)
          = processResults skip st rest from rfl] at h ⊢
      rcases ih st u r h with h' | ⟨q, hq, hr, hm, hni⟩
      · exact Or.inl h'
      · exact Or.inr ⟨q, List.mem_cons_of_mem _ hq, hr, hm, hni⟩
    | ok url path =>
      by_cases hmem : memK st.image_status url = true
      · rw [show processResults skip st (.ok url path :: rest)
            = processResults skip st rest by
            simp only [processResults, if_pos hmem]] at h ⊢
        rcases ih st u r h with h' | ⟨q, hq, hr, hm, hni⟩
        · exact Or.inl h'
        · exact Or.inr ⟨q, List.mem_cons_of_mem _ hq, hr, hm, hni⟩
      · rw [Bool.not_eq_true] at hmem
        set st' : PipelineState :=
          { st with
            new_images :=
              if skip then st.new_images
              else st.new_images ++ [joinPath st.basedir path]
            statsDownloaded := st.statsDownloaded + 1
            image_status :=
              st.image_status ++ [(url, newRecord skip path)] } with hst'
        rw [show processResults skip st (.ok url path :: rest)
            = processResults skip st' rest by
            simp only [processResults, hmem, Bool.false_eq_true, if_false]]
          at h ⊢
        have hbase : st'.basedir = st.basedir := by rw [hst']
        rcases ih st' u r h with h' | ⟨q, hq, hr, hm, hni⟩
        · rw [hst'] at h'
          rcases List.mem_append.1 h' with h'' | h''
          · exact Or.inl h''
          · rcases List.mem_singleton.1 h'' with h3
            have hu : u = url := congrArg Prod.fst h3
            have hrr : r = newRecord skip path := congrArg Prod.snd h3
            refine Or.inr ⟨path, by rw [hu]; exact List.mem_cons_self _ _,
              hrr, by rw [hu]; exact hmem, ?_⟩
            intro hsk
            refine processResults_newimg_mono skip rest st' _ ?_
            rw [hst', hsk]
            simp
        · rw [hst'] at hm
          simp only [memK_append] at hm
          refine Or.inr ⟨q, List.mem_cons_of_mem _ hq, hr,
            (Bool.or_eq_false_iff.1 hm).1, ?_⟩
          intro hsk
          have := hni hsk
          rw [hbase] at this
          exact this

/-- Every pending-batch entry is either an original one or the full path
of a fresh, non-exempt download of this item. -/
theorem processResults_newimg_shape (skip : Bool) (rs : List FetchResult) :
    ∀ st p, p ∈ (processResults skip st rs).new_images →
      p ∈ st.new_images ∨
      skip = false ∧ ∃ u q, FetchResult.ok u q ∈ rs ∧
        p = joinPath st.basedir q ∧ memK st.image_status u = false := by
  induction rs with
  | nil =>
    intro st p h
    exact Or.inl (by simpa [processResults] using h)
  | cons x rest ih =>
    intro st p h
    cases x with
    | err =>
      rcases ih st p h with h' | ⟨hs, u, q, hq, hp, hm⟩
      · exact Or.inl h'
      · exact Or.inr ⟨hs, u, q, List.mem_cons_of_mem _ hq, hp, hm⟩
    | ok url path =>
      by_cases hmem : memK st.image_status url = true
      · rw [show processResults skip st (.ok url path :: rest)
            = processResults skip st rest by
            simp only [processResults, if_pos hmem]] at h
        rcases ih st p h with h' | ⟨hs, u, q, hq, hp, hm⟩
        · exact Or.inl h'
        · exact Or.inr ⟨hs, u, q, List.mem_cons_of_mem _ hq, hp, hm⟩
      · rw [Bool.not_eq_true] at hmem
        set st' : PipelineState :=
          { st with
            new_images :=
              if skip then st.new_images
              else st.new_images ++ [joinPath st.basedir path]
            statsDownloaded := st.statsDownloaded + 1
            image_status :=
              st.image_status ++ [(url, newRecord skip path)] } with hst'
        rw [show processResults skip st (.ok url path :: rest)
            = processResults skip st' rest by
            simp only [processResults, hmem, Bool.false_eq_true, if_false]] at h
        rcases ih st' p h with h' | ⟨hs, u, q, hq, hp, hm⟩
        · rw [hst'] at h'
          cases hsk : skip with
          | true => rw [hsk] at h'; simp only [if_true] at h'; exact Or.inl h'
          | false =>
            rw [hsk] at h'
            simp only [if_false, Bool.false_eq_true] at h'
            rcases List.mem_append.1 h' with h'' | h''
            · exact Or.inl h''
            · exact Or.inr ⟨rfl, url, path, List.mem_cons_self _ _,
                List.mem_singleton.1 h'', hmem⟩
        · rw [hst'] at hm hp
          simp only [memK_append] at hm
          exact Or.inr ⟨hs, u, q, List.mem_cons_of_mem _ hq, hp,
            (Bool.or_eq_false_iff.1 hm).1⟩

/-- Every successful result's URL is tracked afterwards. -/
theorem processResults_recorded (skip : Bool) (rs : List FetchResult) :
    ∀ st u q, FetchResult.ok u q ∈ rs →
      memK (processResults skip st rs).image_status u = true := by
  induction rs with
  | nil => intro st u q h; simp at h
  | cons x rest ih =>
    intro st u q h
    have hmono : ∀ s : PipelineState, memK s.image_status u = true →
        memK (processResults skip s rest).image_status u = true := by
      intro s hs
      obtain ⟨ext, _, _, _, _, _, himg, _, _, _, _⟩ := processResults_spec skip rest s
      rw [himg, memK_append, hs, Bool.true_or]
    cases x with
    | err =>
      rcases List.mem_cons.1 h with h' | h'
      · cases h'
      · exact ih st u q h'
    | ok url path =>
      by_cases hmem : memK st.image_status url = true
      · rw [show processResults skip st (.ok url path :: rest)
            = processResults skip st rest by
            simp only [processResults, if_pos hmem]]
        rcases List.mem_cons.1 h with h' | h'
        · have : u = url := by cases h'; rfl
          exact hmono st (this ▸ hmem)
        · exact ih st u q h'
      · rw [Bool.not_eq_true] at hmem
        set st' : PipelineState :=
          { st with
            new_images :=
              if skip then st.new_images
              else st.new_images ++ [joinPath st.basedir path]
            statsDownloaded := st.statsDownloaded + 1
            image_status :=
              st.image_status ++ [(url, newRecord skip path)] } with hst'
        rw [show processResults skip st (.ok url path :: rest)
            = processResults skip st' rest by
            simp only [processResults, hmem, Bool.false_eq_true, if_false]]
        rcases List.mem_cons.1 h with h' | h'
        · have hu : u = url := by cases h'; rfl
          refine hmono st' ?_
          rw [hst']
          simp only [memK_append, hu]
          simp [memK]
        · exact ih st' u q h'

/-! ### Facts about the enhancement phase -/

theorem runWaifu2x_true_fst (staged : List String) :
    (runWaifu2x staged (some true)).1 = true := by
  by_cases h : staged.isEmpty = true <;> simp [runWaifu2x, h]

theorem matchesPending_nil (basedir : String) (r : ImageRecord) :
    matchesPending basedir [] r = false := by
  cases hfp : r.file_path <;> simp [matchesPending, hfp]

/-- With a non-empty pending batch and a reported tool success, the
enhancement phase sets `stats['enhanced']` to the batch size and flips
`enhanced := true` on every matching record. -/
theorem enhanceOutcome_success_state (st : PipelineState)
    (copyOk : String → Bool) (hne : st.new_images ≠ []) :
    enhanceOutcome st copyOk (some true) =
      ({ st with
          statsEnhanced := st.new_images.length
          image_status := st.image_status.map fun kv =>
            if matchesPending st.basedir st.new_images kv.2 then
              (kv.1, { kv.2 with enhanced := true })
            else kv },
        !(st.new_images.filter copyOk).isEmpty) := by
  have hempty : st.new_images.isEmpty = false := by
    simp [List.isEmpty_iff, hne]
  by_cases hst : (st.new_images.filter copyOk).isEmpty = true <;>
    simp [enhanceOutcome, hempty, runWaifu2x, hst]

/-- With a non-empty staged input directory and a tool that exits
nonzero (or fails to launch), the enhancement phase sets
`stats['failed']` to the batch size and flips `enhanced := false` on
every matching record — no record's `failed` field is written. -/
theorem enhanceOutcome_fail_state (st : PipelineState)
    (copyOk : String → Bool) (tr : Option Bool) (hne : st.new_images ≠ [])
    (hstaged : st.new_images.filter copyOk ≠ [])
    (htr : tr = some false ∨ tr = none) :
    enhanceOutcome st copyOk tr =
      ({ st with
          statsFailed := st.new_images.length
          image_status := st.image_status.map fun kv =>
            if matchesPending st.basedir st.new_images kv.2 then
              (kv.1, { kv.2 with enhanced := false })
            else kv },
        true) := by
  have hempty : st.new_images.isEmpty = false := by
    simp [List.isEmpty_iff, hne]
  have hst : (st.new_images.filter copyOk).isEmpty = false := by
    simp [List.isEmpty_iff, hstaged]
  rcases htr with h | h <;> subst h <;>
    simp [enhanceOutcome, hempty, runWaifu2x, hst]

/-- When every staging copy fails, the input directory is empty at
invocation time: `run_waifu2x` reports success without launching the
tool, and the whole batch is reconciled as enhanced. -/
theorem enhanceOutcome_emptyStaged (st : PipelineState)
    (copyOk : String → Bool) (tr : Option Bool) (hne : st.new_images ≠ [])
    (hcopy : st.new_images.filter copyOk = []) :
    enhanceOutcome st copyOk tr =
      ({ st with
          statsEnhanced := st.new_images.length
          image_status := st.image_status.map fun kv =>
            if matchesPending st.basedir st.new_images kv.2 then
              (kv.1, { kv.2 with enhanced := true })
            else kv },
        false) := by
  have hempty : st.new_images.isEmpty = false := by
    simp [List.isEmpty_iff, hne]
  simp [enhanceOutcome, hempty, hcopy, runWaifu2x]

/-- Marking lemma: membership form of `enhanceOutcome_success_state`,
with the empty-batch case handled (then nothing can match). -/
theorem enhanceOutcome_success_mark (st : PipelineState)
    (copyOk : String → Bool) (u : String) (r : ImageRecord)
    (hmem : (u, r) ∈ st.image_status)
    (hmatch : matchesPending st.basedir st.new_images r = true) :
    (u, { r with enhanced := true })
      ∈ (enhanceOutcome st copyOk (some true)).1.image_status := by
  by_cases hne : st.new_images = []
  · rw [hne, matchesPending_nil] at hmatch
    exact Bool.noConfusion hmatch
  · rw [enhanceOutcome_success_state st copyOk hne]
    have := List.mem_map_of_mem
      (f := fun kv : String × ImageRecord =>
        if matchesPending st.basedir st.new_images kv.2 then
          (kv.1, { kv.2 with enhanced := true })
        else kv) hmem
    simpa [hmatch] using this

/-- Every entry after the enhancement phase descends from an entry with
the same key, and the phase never touches `downloaded`, `failed` or
`file_path`. -/
theorem enhanceOutcome_entries (st : PipelineState)
    (copyOk : String → Bool) (tr : Option Bool) (u : String)
    (r' : ImageRecord)
    (h : (u, r') ∈ (enhanceOutcome st copyOk tr).1.image_status) :
    ∃ r, (u, r) ∈ st.image_status ∧ r'.failed = r.failed ∧
      r'.downloaded = r.downloaded ∧ r'.file_path = r.file_path := by
  have hmap : ∀ (b : Bool),
      (u, r') ∈ (st.image_status.map fun kv =>
        if matchesPending st.basedir st.new_images kv.2 then
          (kv.1, { kv.2 with enhanced := b })
        else kv) →
      ∃ r, (u, r) ∈ st.image_status ∧ r'.failed = r.failed ∧
        r'.downloaded = r.downloaded ∧ r'.file_path = r.file_path := by
    intro b hb
    obtain ⟨kv, hmem, heq⟩ := List.mem_map.1 hb
    obtain ⟨u0, r0⟩ := kv
    by_cases hm : matchesPending st.basedir st.new_images r0 = true
    · simp only [hm, if_true] at heq
      have hu : u0 = u := congrArg Prod.fst heq
      have hr : ({ r0 with enhanced := b } : ImageRecord) = r' :=
        congrArg Prod.snd heq
      exact ⟨r0, hu ▸ hmem, by rw [← hr], by rw [← hr], by rw [← hr]⟩
    · rw [Bool.not_eq_true] at hm
      simp only [hm, Bool.false_eq_true, if_false] at heq
      have hu : u0 = u := congrArg Prod.fst heq
      have hr : r0 = r' := congrArg Prod.snd heq
      exact ⟨r0, hu ▸ hmem, by rw [← hr], by rw [← hr], by rw [← hr]⟩
  by_cases hempty : st.new_images.isEmpty = true
  · rw [show (enhanceOutcome st copyOk tr).1 = st by
      simp [enhanceOutcome, hempty]] at h
    exact ⟨r', h, rfl, rfl, rfl⟩
  · have hne : st.new_images ≠ [] := by
      simpa [List.isEmpty_iff] using hempty
    by_cases hcopy : st.new_images.filter copyOk = []
    · rw [enhanceOutcome_emptyStaged st copyOk tr hne hcopy] at h
      exact hmap true h
    · cases tr with
      | none =>
        rw [enhanceOutcome_fail_state st copyOk none hne hcopy
          (Or.inr rfl)] at h
        exact hmap false h
      | some b =>
        cases b with
        | true =>
          rw [enhanceOutcome_success_state st copyOk hne] at h
          exact hmap true h
        | false =>
          rw [enhanceOutcome_fail_state st copyOk (some false) hne hcopy
            (Or.inl rfl)] at h
          exact hmap false h

/-- The enhancement phase never changes `basedir`, `all_urls` or the
`downloaded` counter. -/
theorem enhanceOutcome_fields (st : PipelineState)
    (copyOk : String → Bool) (tr : Option Bool) :
    (enhanceOutcome st copyOk tr).1.basedir = st.basedir ∧
    (enhanceOutcome st copyOk tr).1.all_urls = st.all_urls ∧
    (enhanceOutcome st copyOk tr).1.statsDownloaded = st.statsDownloaded := by
  by_cases hempty : st.new_images.isEmpty = true
  · simp [enhanceOutcome, hempty]
  · by_cases h1 : (runWaifu2x (st.new_images.filter copyOk) tr).1 = true <;>
      simp [enhanceOutcome, hempty, h1]

/-! ## Claim theorems -/

/-- Claim C3 (refuted; the code has a bug): `wait_if_needed` with the
default configuration N=10, W=60s does NOT bound admissions to 10 per
trailing 60-second interval.  With 21 back-to-back `admit()` calls
starting at time 0, calls 1–10 are admitted at time 0 and calls 11–21
are ALL admitted at time 60 — 11 admissions inside the 60-second
interval (0, 60].  The slip: after sleeping, the code appends the
timestamp captured *before* the sleep, and entries exactly
`time_window` old are never evicted (`>` is strict), so the full deque
computes a zero wait for every subsequent call. -/
theorem rateLimiter_window_bound_violated :
    simulateBackToBack 21 initialLimiter 0
      = [0, 0, 0, 0, 0, 0, 0, 0, 0, 0,
         60, 60, 60, 60, 60, 60, 60, 60, 60, 60, 60] ∧
    10 < ((simulateBackToBack 21 initialLimiter 0).filter
      (fun t => 0 < t && t ≤ 60)).length := by
  constructor
  · rfl
  · decide

/-- Claim C1, counterexample: a run with a pending batch of K = 1 newly
downloaded, non-exempt file whose staging copy succeeds and whose
external tool launch exits nonzero.  The claim says the ledger record
ends with `failed = true`; in the code, the failure branch of
`close_spider` (line 381) writes `status['enhanced'] = False` and never
writes the `failed` key, so the record ends with `failed = false`
(only the run-level `stats['failed']` counter is set). -/
theorem c1_counterexample :
    (closeSpider
        (itemCompleted (initState "store")
          [.ok "http://example.com/a.jpg" "full/example_a.jpg"])
        (fun _ => true) (some false) 0).launched = true ∧
    (closeSpider
        (itemCompleted (initState "store")
          [.ok "http://example.com/a.jpg" "full/example_a.jpg"])
        (fun _ => true) (some false) 0).final.statsFailed = 1 ∧
    lookupK (closeSpider
        (itemCompleted (initState "store")
          [.ok "http://example.com/a.jpg" "full/example_a.jpg"])
        (fun _ => true) (some false) 0).final.image_status
        "http://example.com/a.jpg"
      = some { downloaded := true, enhanced := false, failed := false,
               file_path := some "full/example_a.jpg" } := by
  refine ⟨rfl, rfl, rfl⟩

/-- Claim C1 as amended: for a run with a non-empty pending batch whose
staging directory is non-empty at invocation, if the tool exits zero
then every pending record ends `enhanced = true` and the `enhanced`
counter equals K; if it exits nonzero or fails to launch, every pending
record ends `enhanced = false`, its `failed` field is left at its prior
value (the record-level `failed` key is never written; only the
run-level `failed` counter is set to K). -/
theorem c1_all_or_nothing_amended (st : PipelineState)
    (copyOk : String → Bool) (tr : Option Bool)
    (hne : st.new_images ≠ [])
    (hstaged : st.new_images.filter copyOk ≠ []) :
    (tr = some true →
      (enhanceOutcome st copyOk tr).1.statsEnhanced = st.new_images.length ∧
      ∀ u r, (u, r) ∈ st.image_status →
        matchesPending st.basedir st.new_images r = true →
        (u, { r with enhanced := true })
          ∈ (enhanceOutcome st copyOk tr).1.image_status) ∧
    ((tr = some false ∨ tr = none) →
      (enhanceOutcome st copyOk tr).1.statsFailed = st.new_images.length ∧
      ∀ u r, (u, r) ∈ st.image_status →
        matchesPending st.basedir st.new_images r = true →
        (u, { r with enhanced := false })
          ∈ (enhanceOutcome st copyOk tr).1.image_status) ∧
    (∀ u r', (u, r') ∈ (enhanceOutcome st copyOk tr).1.image_status →
      ∃ r, (u, r) ∈ st.image_status ∧ r'.failed = r.failed) := by
  refine ⟨?_, ?_, ?_⟩
  · intro htr
    subst htr
    rw [enhanceOutcome_success_state st copyOk hne]
    refine ⟨rfl, ?_⟩
    intro u r hmem hmatch
    have := List.mem_map_of_mem
      (f := fun kv : String × ImageRecord =>
        if matchesPending st.basedir st.new_images kv.2 then
          (kv.1, { kv.2 with enhanced := true })
        else kv) hmem
    simpa [hmatch] using this
  · intro htr
    rw [enhanceOutcome_fail_state st copyOk tr hne hstaged htr]
    refine ⟨rfl, ?_⟩
    intro u r hmem hmatch
    have := List.mem_map_of_mem
      (f := fun kv : String × ImageRecord =>
        if matchesPending st.basedir st.new_images kv.2 then
          (kv.1, { kv.2 with enhanced := false })
        else kv) hmem
    simpa [hmatch] using this
  · intro u r' h
    obtain ⟨r, hr, hf, _, _⟩ := enhanceOutcome_entries st copyOk tr u r' h
    exact ⟨r, hr, hf⟩

/-- Witness for C1's amended theorem at a concrete one-file run with a
nonzero tool exit. -/
theorem c1_all_or_nothing_amended_witness :
    (enhanceOutcome
        (itemCompleted (initState "store")
          [.ok "http://example.com/a.jpg" "full/example_a.jpg"])
        (fun _ => true) (some false)).1.statsFailed
      = (itemCompleted (initState "store")
          [.ok "http://example.com/a.jpg" "full/example_a.jpg"]).new_images.length := by
  have h := c1_all_or_nothing_amended
    (itemCompleted (initState "store")
      [.ok "http://example.com/a.jpg" "full/example_a.jpg"])
    (fun _ => true) (some false) (by decide) (by decide)
  exact (h.2.1 (Or.inl rfl)).1

/-- Claim C2, counterexample: exemption is NOT classified per
identifier.  In an item whose results contain one exempt-domain URL and
one non-exempt URL, `skip_enhancement` is set for the whole item, so
the non-exempt identifier `http://example.com/b.jpg` (not from an
exempt domain) is recorded with `enhanced = true` and never enters the
pending batch — the claim says it must be appended to the pending batch
with `enhanced = false`. -/
theorem c2_counterexample :
    isSkipUrl "http://example.com/b.jpg" = false ∧
    lookupK (itemCompleted (initState "store")
        [.ok "https://www.ticketsasa.com/x.jpg" "full/ts_x.jpg",
         .ok "http://example.com/b.jpg" "full/example_b.jpg"]).image_status
        "http://example.com/b.jpg"
      = some { downloaded := true, enhanced := true, failed := false,
               file_path := some "full/example_b.jpg" } ∧
    (itemCompleted (initState "store")
        [.ok "https://www.ticketsasa.com/x.jpg" "full/ts_x.jpg",
         .ok "http://example.com/b.jpg" "full/example_b.jpg"]).new_images
      = [] := by
  refine ⟨rfl, rfl, rfl⟩

/-- Claim C2 as amended: eligibility is classified per ITEM, not per
identifier: if any successful result of the item has an exempt-domain
URL, every newly recorded identifier of the item is created with
`downloaded = true`, `enhanced = true`, `failed = false` and nothing is
appended to the pending batch; otherwise every newly recorded
identifier is created with `downloaded = true`, `enhanced = false`,
`failed = false` and its full path is appended to the pending batch.
Either way every successful result's identifier is tracked
afterwards. -/
theorem c2_item_level_classification (st : PipelineState)
    (results : List FetchResult) :
    (skipEnhancement results = true →
      (itemCompleted st results).new_images = st.new_images ∧
      ∀ u r, (u, r) ∈ (itemCompleted st results).image_status →
        (u, r) ∈ st.image_status ∨
        (r.downloaded = true ∧ r.enhanced = true ∧ r.failed = false)) ∧
    (skipEnhancement results = false →
      ∀ u r, (u, r) ∈ (itemCompleted st results).image_status →
        (u, r) ∈ st.image_status ∨
        (r.downloaded = true ∧ r.enhanced = false ∧ r.failed = false ∧
          ∃ q, r.file_path = some q ∧
            joinPath st.basedir q ∈ (itemCompleted st results).new_images)) ∧
    (∀ u q, FetchResult.ok u q ∈ results →
      memK (itemCompleted st results).image_status u = true) := by
  refine ⟨?_, ?_, ?_⟩
  · intro hsk
    constructor
    · obtain ⟨ext, extp, _, _, _, _, _, hni, _, _, _, hskipnil⟩ :=
        processResults_spec (skipEnhancement results) results st
      rw [show itemCompleted st results
          = processResults (skipEnhancement results) st results from rfl,
        hni, hskipnil hsk, List.append_nil]
    · intro u r h
      rcases processResults_status_shape (skipEnhancement results) results
        st u r h with h' | ⟨q, _, hr, _, _⟩
      · exact Or.inl h'
      · rw [hr, hsk]
        exact Or.inr ⟨rfl, rfl, rfl⟩
  · intro hsk
    intro u r h
    rcases processResults_status_shape (skipEnhancement results) results
      st u r h with h' | ⟨q, _, hr, _, hni⟩
    · exact Or.inl h'
    · rw [hr, hsk]
      refine Or.inr ⟨rfl, rfl, rfl, q, rfl, ?_⟩
      have := hni (by rw [hsk])
      rw [show itemCompleted st results
          = processResults (skipEnhancement results) st results from rfl, hsk]
      rw [hsk] at this
      exact this
  · intro u q h
    exact processResults_recorded (skipEnhancement results) results st u q h

/-- Witness for C2's amended theorem: a single-result exempt item
records the identifier with `enhanced = true` and stages nothing. -/
theorem c2_item_level_classification_witness :
    (itemCompleted (initState "store")
        [.ok "https://www.ticketsasa.com/x.jpg" "full/ts_x.jpg"]).new_images
      = (initState "store").new_images ∧
    memK (itemCompleted (initState "store")
        [.ok "https://www.ticketsasa.com/x.jpg" "full/ts_x.jpg"]).image_status
        "https://www.ticketsasa.com/x.jpg" = true := by
  have h := c2_item_level_classification (initState "store")
    [.ok "https://www.ticketsasa.com/x.jpg" "full/ts_x.jpg"]
  exact ⟨(h.1 (by decide)).1,
    h.2.2 "https://www.ticketsasa.com/x.jpg" "full/ts_x.jpg"
      (List.mem_singleton.2 rfl)⟩

/-- Claim C4 (confirmed): idempotent discovery and single counting.  An
identifier already tracked in the ledger is never requested by
`get_media_requests`, its record survives `item_completed` unchanged,
ledger keys stay duplicate-free, every pending-batch addition stems
from an identifier that was NOT yet tracked, and the `downloaded`
counter grows by exactly the number of distinct newly added records
(so within a run a repeated identifier is recorded and counted at most
once). -/
theorem c4_idempotent_discovery (st : PipelineState) (urls : List String)
    (results : List FetchResult) (url : String)
    (hin : memK st.image_status url = true)
    (hnd : (keysOf st.image_status).Nodup) :
    url ∉ (getMediaRequests st urls).2 ∧
    lookupK (itemCompleted st results).image_status url
      = lookupK st.image_status url ∧
    (keysOf (itemCompleted st results).image_status).Nodup ∧
    (∀ p, p ∈ (itemCompleted st results).new_images →
      p ∈ st.new_images ∨ ∃ u q, FetchResult.ok u q ∈ results ∧
        memK st.image_status u = false ∧ p = joinPath st.basedir q) ∧
    (itemCompleted st results).statsDownloaded
        + (keysOf st.image_status).length
      = st.statsDownloaded
        + (keysOf (itemCompleted st results).image_status).length := by
  obtain ⟨ext, extp, _, _, _, _, himg, hni, hsd, hfresh, hndext, _⟩ :=
    processResults_spec (skipEnhancement results) results st
  refine ⟨?_, ?_, ?_, ?_, ?_⟩
  · intro hmem
    have := (List.mem_filter.1 hmem).2
    rw [hin] at this
    simp at this
  · rw [show itemCompleted st results
        = processResults (skipEnhancement results) st results from rfl, himg]
    exact lookupK_append_left _ ext url hin
  · rw [show itemCompleted st results
        = processResults (skipEnhancement results) st results from rfl, himg]
    rw [keysOf, List.map_append]
    refine List.nodup_append.2 ⟨hnd, hndext, ?_⟩
    intro k hk hk'
    obtain ⟨kv, hkv, hfst⟩ := List.mem_map.1 hk'
    have := hfresh kv hkv
    rw [hfst] at this
    have hkk : memK st.image_status k = true :=
      (memK_iff_mem_keysOf st.image_status k).2 hk
    rw [hkk] at this
    exact Bool.noConfusion this
  · intro p hp
    rcases processResults_newimg_shape (skipEnhancement results) results
      st p hp with h' | ⟨_, u, q, hq, hpq, hm⟩
    · exact Or.inl h'
    · exact Or.inr ⟨u, q, hq, hm, hpq⟩
  · rw [show itemCompleted st results
        = processResults (skipEnhancement results) st results from rfl,
      himg, hsd, keysOf, keysOf, List.map_append, List.length_append,
      List.length_map, List.length_map]
    omega

/-- Witness for C4 at a ledger seeded with one record and an item that
repeats the tracked identifier. -/
theorem c4_idempotent_discovery_witness :
    "http://seed.example/s.jpg" ∉
      (getMediaRequests
        (itemCompleted (initState "store")
          [.ok "http://seed.example/s.jpg" "full/seed_s.jpg"])
        ["http://seed.example/s.jpg", "http://other.example/o.jpg"]).2 ∧
    lookupK (itemCompleted
        (itemCompleted (initState "store")
          [.ok "http://seed.example/s.jpg" "full/seed_s.jpg"])
        [.ok "http://seed.example/s.jpg" "full/seed_s.jpg"]).image_status
        "http://seed.example/s.jpg"
      = lookupK (itemCompleted (initState "store")
          [.ok "http://seed.example/s.jpg" "full/seed_s.jpg"]).image_status
        "http://seed.example/s.jpg" := by
  have h := c4_idempotent_discovery
    (itemCompleted (initState "store")
      [.ok "http://seed.example/s.jpg" "full/seed_s.jpg"])
    ["http://seed.example/s.jpg", "http://other.example/o.jpg"]
    [.ok "http://seed.example/s.jpg" "full/seed_s.jpg"]
    "http://seed.example/s.jpg" (by decide) (by decide)
  exact ⟨h.1, h.2.1⟩

/-- Claim C5 (confirmed): the stats block written by the
`save_image_status` executed in `close_spider` is recomputed from the
records at save time — `total` is the number of records, `enhanced` and
`failed` count the records with a truthy `enhanced` (resp. `failed`)
field — and it is independent of the cached run counters: overriding
`stats['downloaded']`, `stats['enhanced']`, `stats['failed']` to
arbitrary values changes nothing in the saved ledger. -/
theorem c5_save_time_counters (st : PipelineState) (copyOk : String → Bool)
    (tr : Option Bool) (elapsed : ℚ) :
    (closeSpider st copyOk tr elapsed).saved.stats.total
        = (closeSpider st copyOk tr elapsed).saved.images.length ∧
    (closeSpider st copyOk tr elapsed).saved.stats.enhanced
        = ((closeSpider st copyOk tr elapsed).saved.images.filter
            fun kv => kv.2.enhanced).length ∧
    (closeSpider st copyOk tr elapsed).saved.stats.failed
        = ((closeSpider st copyOk tr elapsed).saved.images.filter
            fun kv => kv.2.failed).length ∧
    ∀ a b c : Nat,
      (closeSpider { st with statsDownloaded := a, statsEnhanced := b, statsFailed := c } copyOk tr elapsed).saved
        = (closeSpider st copyOk tr elapsed).saved := by
  refine ⟨rfl, rfl, rfl, ?_⟩
  intro a b c
  by_cases h1 : st.new_images.isEmpty = true <;>
    by_cases h2 : (runWaifu2x (st.new_images.filter copyOk) tr).1 = true <;>
      simp [closeSpider, enhanceOutcome, saveImageStatus, h1, h2]

/-- Claim C6, counterexample: `load_image_status` catches only
`FileNotFoundError` and `json.JSONDecodeError`.  A ledger file whose
content parses as JSON but is not an object (e.g. the array `[]`), or
whose `"images"` entry is not an object (e.g. the number 5), raises an
uncaught `AttributeError` instead of yielding an empty ledger — the
claim says every malformed content fails soft. -/
theorem c6_counterexample :
    loadImageStatus (.jsonContent (.arr [])) = .raised ∧
    loadImageStatus (.jsonContent (.obj [("images", .num 5)])) = .raised := by
  exact ⟨rfl, rfl⟩

/-- Claim C6 as amended: a missing file or content that is not
decodable as JSON yields an empty ledger (and the degraded condition is
logged) without an error to the caller; but content that decodes to a
non-object JSON value raises an uncaught error. -/
theorem c6_load_fails_soft_amended :
    loadImageStatus .missing = .ok [] true ∧
    loadImageStatus .notJson = .ok [] true ∧
    ∀ elems, loadImageStatus (.jsonContent (.arr elems)) = .raised := by
  exact ⟨rfl, rfl, fun _ => rfl⟩

/-- Claim C7, counterexample: a two-file pending batch where the copy
into the staging directory fails for the second file but succeeds for
the first, and the tool exits zero.  The claim says the failed-copy
file is excluded from the batch and must not be marked enhanced; in the
code the return value of `copy_to_waifu2x` is ignored (line 359), so
the file stays in `new_images`, is still counted
(`stats['enhanced'] = 2`), and its record is still marked
`enhanced = true`. -/
theorem c7_counterexample :
    c7Copy "store/full/two_2.jpg" = false ∧
    lookupK c7Run.final.image_status "http://two.example/2.jpg"
      = some { downloaded := true, enhanced := true, failed := false,
               file_path := some "full/two_2.jpg" } ∧
    c7Run.final.statsEnhanced = 2 := by
  refine ⟨rfl, rfl, rfl⟩

/-- Claim C7 as amended: a staging-copy failure does not abort the run
(the run still reaches its saved summary with the `downloaded` counter
intact), but the file is NOT excluded from the batch: whatever subset
of copies fails, on a tool run reported successful every pending record
— including those whose copy failed — is still marked
`enhanced = true`. -/
theorem c7_staging_failure_amended (st : PipelineState)
    (copyOk : String → Bool) (elapsed : ℚ) (u : String) (r : ImageRecord)
    (hmem : (u, r) ∈ st.image_status)
    (hmatch : matchesPending st.basedir st.new_images r = true) :
    (u, { r with enhanced := true })
      ∈ (closeSpider st copyOk (some true) elapsed).final.image_status ∧
    (closeSpider st copyOk (some true) elapsed).summary.downloaded
      = st.statsDownloaded := by
  constructor
  · exact enhanceOutcome_success_mark st copyOk u r hmem hmatch
  · exact (enhanceOutcome_fields st copyOk (some true)).2.2

/-- Witness for C7's amended theorem at the two-file run whose second
copy fails. -/
theorem c7_staging_failure_amended_witness :
    ("http://two.example/2.jpg",
      ({ downloaded := true, enhanced := true, failed := false,
         file_path := some "full/two_2.jpg" } : ImageRecord))
      ∈ c7Run.final.image_status := by
  have h := c7_staging_failure_amended
    (itemCompleted (initState "store") c7Batch) c7Copy 0
    "http://two.example/2.jpg"
    { downloaded := true, enhanced := false, failed := false,
      file_path := some "full/two_2.jpg" }
    (by decide) (by decide)
  exact h.1

/-- Claim C8 (confirmed): the persisted summary's `success_rate` is the
percentage `enhanced / downloaded * 100` (0 when `downloaded = 0`) and
`avg_time_per_image` is the elapsed run seconds divided by `downloaded`
(0 when `downloaded = 0`); and in the concrete scenario of a run with 3
new non-exempt downloads and tool exit 0 and 6 elapsed seconds, the
summary reports `total_urls = 3`, `downloaded = 3`, `enhanced = 3`,
`failed = 0`, `success_rate = 100.0`, `avg_time_per_image = 2.0`. -/
theorem c8_run_summary_arithmetic :
    (∀ (st : PipelineState) (copyOk : String → Bool) (tr : Option Bool)
        (elapsed : ℚ),
      ((closeSpider st copyOk tr elapsed).summary.downloaded = 0 →
        (closeSpider st copyOk tr elapsed).summary.successRate = 0 ∧
        (closeSpider st copyOk tr elapsed).summary.avgTimePerImage = 0) ∧
      (0 < (closeSpider st copyOk tr elapsed).summary.downloaded →
        (closeSpider st copyOk tr elapsed).summary.successRate
          = ((closeSpider st copyOk tr elapsed).summary.enhanced : ℚ)
            / ((closeSpider st copyOk tr elapsed).summary.downloaded : ℚ)
            * 100 ∧
        (closeSpider st copyOk tr elapsed).summary.avgTimePerImage
          = elapsed
            / ((closeSpider st copyOk tr elapsed).summary.downloaded : ℚ))) ∧
    (c8Run.summary.totalUrls = 3 ∧ c8Run.summary.downloaded = 3 ∧
     c8Run.summary.enhanced = 3 ∧ c8Run.summary.failed = 0 ∧
     c8Run.summary.successRate = 100 ∧
     c8Run.summary.avgTimePerImage = 2) := by
  constructor
  · intro st copyOk tr elapsed
    constructor
    · intro h0
      have hd : (enhanceOutcome st copyOk tr).1.statsDownloaded = 0 := h0
      constructor <;> simp [closeSpider, mkSummary, hd]
    · intro hpos
      have hd : 0 < (enhanceOutcome st copyOk tr).1.statsDownloaded := hpos
      constructor <;> simp [closeSpider, mkSummary, hd, Nat.pos_iff_ne_zero]
  · have hd : c8Run.final.statsDownloaded = 3 := by decide
    have he : c8Run.final.statsEnhanced = 3 := by decide
    have hrate : c8Run.summary.successRate
        = if 0 < c8Run.final.statsDownloaded then
            (c8Run.final.statsEnhanced : ℚ)
              / (c8Run.final.statsDownloaded : ℚ) * 100
          else 0 := rfl
    have havg : c8Run.summary.avgTimePerImage
        = if 0 < c8Run.final.statsDownloaded then
            (6 : ℚ) / (c8Run.final.statsDownloaded : ℚ)
          else 0 := rfl
    refine ⟨by decide, by decide, by decide, by decide, ?_, ?_⟩
    · rw [hrate, hd, he]
      norm_num
    · rw [havg, hd]
      norm_num

/-- Witness for C8 discharging both arithmetic branches: the empty run
has `downloaded = 0` and rate 0; the three-download scenario has
`downloaded = 3 > 0` and rate `3/3*100`. -/
theorem c8_run_summary_arithmetic_witness :
    c8Empty.summary.successRate = 0 ∧
    c8Run.summary.successRate
      = (c8Run.summary.enhanced : ℚ) / (c8Run.summary.downloaded : ℚ)
        * 100 := by
  have h := c8_run_summary_arithmetic.1
  refine ⟨((h (initState "store") (fun _ => true) none 0).1 (by decide)).1, ?_⟩
  exact ((h (itemCompleted
      (getMediaRequests (initState "store") c8Urls).1 c8Results)
    (fun _ => true) (some true) 6).2 (by decide)).1

/-- Claim C9 (confirmed, implicit behaviour): with a non-empty pending
batch but an input staging directory left empty at invocation time
(every staging copy failed), `run_waifu2x` reports success without ever
launching the external tool, so the `enhanced` counter is set to the
batch size and every pending record is marked `enhanced = true` even
though no file was enhanced — whatever the external tool would have
done. -/
theorem c9_empty_staging_false_success (st : PipelineState)
    (copyOk : String → Bool) (tr : Option Bool)
    (hne : st.new_images ≠ [])
    (hcopy : ∀ p ∈ st.new_images, copyOk p = false) :
    (enhanceOutcome st copyOk tr).2 = false ∧
    (enhanceOutcome st copyOk tr).1.statsEnhanced = st.new_images.length ∧
    ∀ u r, (u, r) ∈ st.image_status →
      matchesPending st.basedir st.new_images r = true →
      (u, { r with enhanced := true })
        ∈ (enhanceOutcome st copyOk tr).1.image_status := by
  have hfil : st.new_images.filter copyOk = [] :=
    List.filter_eq_nil_iff.2 (by intro a ha; simp [hcopy a ha])
  rw [enhanceOutcome_emptyStaged st copyOk tr hne hfil]
  refine ⟨rfl, rfl, ?_⟩
  intro u r hmem hmatch
  have := List.mem_map_of_mem
    (f := fun kv : String × ImageRecord =>
      if matchesPending st.basedir st.new_images kv.2 then
        (kv.1, { kv.2 with enhanced := true })
      else kv) hmem
  simpa [hmatch] using this

/-- Witness for C9 at the one-file run where the only copy fails. -/
theorem c9_empty_staging_false_success_witness :
    (enhanceOutcome c9State (fun _ => false) (some false)).2 = false ∧
    (enhanceOutcome c9State (fun _ => false) (some false)).1.statsEnhanced
      = 1 := by
  have h := c9_empty_staging_false_success c9State (fun _ => false)
    (some false) (by decide) (by intro p hp; rfl)
  refine ⟨h.1, ?_⟩
  rw [h.2.1]
  decide

/-- Claim C10 (confirmed, implicit behaviour): the ledger key is the
raw, un-normalized source URL throughout.  The membership check before
fetching (`get_media_requests`) filters on raw-URL membership, the
check before recording (`item_completed`) leaves an already-tracked raw
URL's record untouched, and the `save_image_status` that actually
executes (the second textual definition of the method, which shadows
the first) writes the in-memory keys unchanged — whereas the shadowed
first definition would have normalized keys, observably differing for
any non-trivial normalizer. -/
theorem c10_raw_url_keys (m : List (String × ImageRecord))
    (st : PipelineState) (urls : List String) (results : List FetchResult)
    (url : String) (hmem : memK st.image_status url = true) :
    (saveImageStatus m).images = m ∧
    (getMediaRequests st urls).2
      = urls.filter (fun u => !(memK st.image_status u)) ∧
    lookupK (itemCompleted st results).image_status url
      = lookupK st.image_status url ∧
    ∃ (normalize : String → String) (m0 : List (String × ImageRecord)),
      (saveImageStatusShadowed normalize m0).images
        ≠ (saveImageStatus m0).images := by
  refine ⟨rfl, rfl, ?_, ?_⟩
  · obtain ⟨ext, _, _, _, _, _, himg, _, _, _, _⟩ :=
      processResults_spec (skipEnhancement results) results st
    rw [show itemCompleted st results
        = processResults (skipEnhancement results) st results from rfl, himg]
    exact lookupK_append_left _ ext url hmem
  · refine ⟨fun _ => "n", [("a", plainRecord)], ?_⟩
    decide

/-- Witness for C10 at a ledger with one tracked raw URL. -/
theorem c10_raw_url_keys_witness :
    (getMediaRequests c9State ["http://nine.example/n.jpg"]).2 = [] ∧
    lookupK (itemCompleted c9State
        [.ok "http://nine.example/n.jpg" "full/nine_n.jpg"]).image_status
        "http://nine.example/n.jpg"
      = lookupK c9State.image_status "http://nine.example/n.jpg" := by
  have h := c10_raw_url_keys [] c9State ["http://nine.example/n.jpg"]
    [.ok "http://nine.example/n.jpg" "full/nine_n.jpg"]
    "http://nine.example/n.jpg" (by decide)
  refine ⟨?_, h.2.2.1⟩
  rw [h.2.1]
  decide

end Scrapool
